import Mathlib

/-!
Verification of the Murder Mystery game repository.

The repository's visible surface (src/) is the React/TypeScript frontend:
`types.ts` (the shared data model), the `Lobby`/`Game`/`Home`/`JoinGame`
pages, `api.ts` (HTTP client), and `useWebSocket.ts`.  The backend Session
Engine (a FastAPI app under `backend/`, referenced by `start-server.bat`
and the README) is not part of the visible sources, so its operations are
modelled here from the specification, while everything the frontend
decides (chat sending, name validation, WebSocket sending) is embedded
directly from the TypeScript sources.
-/

/-- From src `types.ts`: `GamePhase` — the fixed total order of phases. -/
inductive GamePhase
  | lobby
  | character_select
  | script_reading
  | investigation
  | discussion
  | voting
  | reveal
  | ended
  deriving DecidableEq, Repr

/-- From src `types.ts`: `GameState.status` values. -/
inductive GameStatus
  | waiting
  | in_progress
  | finished
  deriving DecidableEq, Repr

/-- From src `types.ts`: `Player` (character_id is optional there). -/
structure Player where
  id : String
  name : String
  character_id : Option String
  is_host : Bool
  is_connected : Bool
  deriving DecidableEq, Repr

/-- Modelled from the spec (§3 Data Model): the Session record owned by the
missing backend Session Engine.  Fields `characterAssignments` (characterId
→ playerId pairs), `discoveredClues` and the `found_by` stamps are not in
the frontend `GameState` type; they are taken from the spec's data model. -/
structure Session where
  id : String
  story_id : String
  status : GameStatus
  phase : GamePhase
  players : List Player
  host_id : String
  characterAssignments : List (String × String)
  discoveredClues : List String
  clueFoundBy : List (String × String)
  createdAt : String
  deriving DecidableEq, Repr

/-- Modelled from the spec (§7 Error Handling Design): the error taxonomy. -/
inductive EngineError
  | SessionNotFound
  | StoryNotFound
  | SessionFull
  | SessionAlreadyStarted
  | CharacterTaken
  | NotHost
  | PlayersNotReady
  | WrongPhase
  | InvalidPhase
  | NotFound
  deriving DecidableEq, Repr

/-- From src `types.ts`: `CharacterPrivate` — full character record with the
private fields (private_background, secrets, relationships, goals). -/
structure CharacterPrivate where
  id : String
  name : String
  public_info : String
  private_background : String
  secrets : List String
  relationships : List (String × String)
  goals : List String
  deriving DecidableEq, Repr

/-- From src `types.ts`: `Character` — the public character record served by
the shared characters listing (public info plus taken flag only). -/
structure Character where
  id : String
  name : String
  public_info : String
  is_taken : Bool
  deriving DecidableEq, Repr

/-- Projection of a full character record to its public listing entry;
this is the only shape `fetchCharacters` responses carry (src `types.ts`). -/
def toPublic (c : CharacterPrivate) (taken : Bool) : Character :=
  ⟨c.id, c.name, c.public_info, taken⟩

/-- Modelled from the spec (§6 Story Catalog lookup): a story definition —
player-count bounds, the playable characters, and the mapping of
`(locationId, itemId)` search pairs to clue identifiers. -/
structure StoryDef where
  playerMin : Nat
  playerMax : Nat
  characters : List CharacterPrivate
  cluePlacements : List ((String × String) × String)
  deriving DecidableEq, Repr

/-- Modelled from the spec (§6 Event fanout envelope): the closed set of
broadcast event types. -/
inductive Event
  | player_joined (pid : String)
  | player_left (pid : String)
  | phase_change (p : GamePhase)
  | clue_found (clueId : String)
  | chat (senderId content : String)
  deriving DecidableEq, Repr

/-- First-match lookup in the characterId → playerId assignment list. -/
def lookupAssign : List (String × String) → String → Option String
  | [], _ => none
  | (c, p) :: rest, cid => if c = cid then some p else lookupAssign rest cid

/-- Lookup of the clue placed at a `(locationId, itemId)` search pair. -/
def lookupPlacement : List ((String × String) × String) → String → String → Option String
  | [], _, _ => none
  | ((l, i), c) :: rest, lid, iid =>
      if l = lid ∧ i = iid then some c else lookupPlacement rest lid iid

/-- Set a player's `character_id` in the roster (selection side effect). -/
def setPlayerChar (players : List Player) (pid cid : String) : List Player :=
  players.map (fun p => if p.id = pid then { p with character_id := some cid } else p)

/-- From src `Lobby.tsx` line 86: a player is ready when `p.character_id`
is truthy in TypeScript, i.e. present and not the empty string. -/
def playerReady (p : Player) : Bool :=
  match p.character_id with
  | some c => c ≠ ""
  | none => false

/-- From src `Lobby.tsx`: `allReady = game.players.every(p => p.character_id)`. -/
def allReady (ps : List Player) : Bool := ps.all playerReady

/-- Index of a phase in the fixed total order of the spec (§4.3). -/
def phaseIdx : GamePhase → Nat
  | .lobby => 0
  | .character_select => 1
  | .script_reading => 2
  | .investigation => 3
  | .discussion => 4
  | .voting => 5
  | .reveal => 6
  | .ended => 7

/-- Modelled from the spec (§4.3): the successor in the fixed phase order;
`lobby`, `character_select` and `ended` are not advanced by `AdvancePhase`. -/
def nextPhase : GamePhase → Option GamePhase
  | .script_reading => some .investigation
  | .investigation => some .discussion
  | .discussion => some .voting
  | .voting => some .reveal
  | .reveal => some .ended
  | _ => none

/-- Modelled from the spec (§4.2 `SelectCharacter`, missing backend):
serialized compare-and-set selection.  Preconditions: session status in
{waiting, in_progress} and phase `lobby` or `character_select`; the
character must exist in the story; a character held by a *different*
player yields `CharacterTaken`; re-selecting releases the player's
previous character. -/
def selectCharacter (storyChars : List String) (s : Session) (pid cid : String) :
    Except EngineError Session :=
  if s.status = .waiting ∨ s.status = .in_progress then
    if s.phase = .lobby ∨ s.phase = .character_select then
      if cid ∈ storyChars then
        match lookupAssign s.characterAssignments cid with
        | some holder => if holder = pid then .ok s else .error .CharacterTaken
        | none =>
            .ok { s with
                  characterAssignments :=
                    (cid, pid) :: s.characterAssignments.filter (fun e => e.2 ≠ pid),
                  players := setPlayerChar s.players pid cid }
      else .error .NotFound
    else .error .WrongPhase
  else .error .WrongPhase

/-- Modelled from the spec (§4.2 `StartGame`, missing backend): host-only
(`NotHost` checked first, §4.2 lists it first); applicable only from the
pre-game phases (the spec's state-machine summary and invariant (d) make
phase transitions one-directional, so a re-fire from a later phase is
outside the operation's window — `WrongPhase` per §7); requires all
players ready and at least 2 players, else `PlayersNotReady`; on success
sets status `in_progress`, phase `script_reading`, broadcasting
`phase_change`. -/
def startGame (s : Session) (rid : String) :
    Except EngineError (Session × List Event) :=
  if rid = s.host_id then
    if s.phase = .lobby ∨ s.phase = .character_select then
      if allReady s.players ∧ 2 ≤ s.players.length then
        .ok ({ s with status := .in_progress, phase := .script_reading },
             [.phase_change .script_reading])
      else .error .PlayersNotReady
    else .error .WrongPhase
  else .error .NotHost

/-- Modelled from the spec (§4.3 `AdvancePhase`, missing backend): host-only;
`InvalidPhase` from `lobby`, `character_select` or `ended`; otherwise moves
to the next entry of the fixed order, setting status `finished` when the
new phase is `ended`, and broadcasts `phase_change`. -/
def advancePhase (s : Session) (rid : String) :
    Except EngineError (Session × List Event) :=
  if rid = s.host_id then
    match nextPhase s.phase with
    | some p =>
        .ok ({ s with phase := p,
                      status := if p = .ended then .finished else s.status },
             [.phase_change p])
    | none => .error .InvalidPhase
  else .error .NotHost

/-- Modelled from the spec (§4.3 `RecordClueFound`, missing backend): valid
only in phase `investigation`; looks the `(locationId, itemId)` pair up in
the story; an already-discovered clue is a no-op success returning the
clue; a new clue is added to `discoveredClues` and stamped `found_by`. -/
def recordClueFound (story : StoryDef) (s : Session) (fid lid iid : String) :
    Except EngineError (Session × String) :=
  if s.phase = .investigation then
    match lookupPlacement story.cluePlacements lid iid with
    | some clueId =>
        if clueId ∈ s.discoveredClues then .ok (s, clueId)
        else .ok ({ s with discoveredClues := clueId :: s.discoveredClues,
                           clueFoundBy := (clueId, fid) :: s.clueFoundBy }, clueId)
    | none => .error .NotFound
  else .error .WrongPhase

/-- Modelled from the spec (§4.1 `JoinSession`, missing backend): joins are
accepted only while `waiting` and below the story's max player count. -/
def joinSession (story : StoryDef) (s : Session) (pid pname : String) :
    Except EngineError (Session × List Event) :=
  if s.status = .waiting then
    if s.players.length < story.playerMax then
      .ok ({ s with players :=
               s.players ++ [⟨pid, pname, none, false, false⟩] },
           [.player_joined pid])
    else .error .SessionFull
  else .error .SessionAlreadyStarted

/-- Modelled from the spec (§4.1 MarkConnected/MarkDisconnected): flips the
`is_connected` liveness flag of one player, touching nothing else. -/
def markConnected (s : Session) (pid : String) (b : Bool) : Session :=
  { s with players :=
      s.players.map (fun p => if p.id = pid then { p with is_connected := b } else p) }

/-- One inbound mutating request to the Session Engine. -/
inductive EngineAction
  | join (pid pname : String)
  | select (pid cid : String)
  | start (rid : String)
  | advance (rid : String)
  | clue (fid lid iid : String)
  | connectP (pid : String)
  | disconnectP (pid : String)
  deriving DecidableEq, Repr

/-- The Session Engine's serialized dispatch of one action (spec §5: all
mutations of one session are applied one at a time). -/
def applyAction (story : StoryDef) (a : EngineAction) (s : Session) :
    Except EngineError Session :=
  match a with
  | .join pid pname => (joinSession story s pid pname).map Prod.fst
  | .select pid cid => selectCharacter (story.characters.map (·.id)) s pid cid
  | .start rid => (startGame s rid).map Prod.fst
  | .advance rid => (advancePhase s rid).map Prod.fst
  | .clue f l i => (recordClueFound story s f l i).map Prod.fst
  | .connectP pid => .ok (markConnected s pid true)
  | .disconnectP pid => .ok (markConnected s pid false)

/-- A failed request leaves the session state untouched; a successful one
replaces it (spec §7: errors are reported to the requester, the session
survives unchanged). -/
def stepKeep (story : StoryDef) (a : EngineAction) (s : Session) : Session :=
  match applyAction story a s with
  | .ok s' => s'
  | .error _ => s

/-- Both-direction injectivity of the assignment list: no characterId twice
and no playerId twice (spec §3 invariant (c)). -/
def injAssign (a : List (String × String)) : Prop :=
  (a.map Prod.fst).Nodup ∧ (a.map Prod.snd).Nodup

/-- Serialized replay of a batch of `SelectCharacter` attempts for one
character: each attempt is applied to the state left by the previous one
(spec §5 serialization), collecting each caller's outcome. -/
def runSelections (storyChars : List String) (cid : String) :
    Session → List String → Session × List (Except EngineError Unit)
  | s, [] => (s, [])
  | s, pid :: rest =>
      match selectCharacter storyChars s pid cid with
      | .ok s' =>
          let r := runSelections storyChars cid s' rest
          (r.1, .ok () :: r.2)
      | .error e =>
          let r := runSelections storyChars cid s rest
          (r.1, .error e :: r.2)

/-- The identifiers of currently connected players (the Connection Hub's
registry, spec §2). -/
def connectedIds (s : Session) : List String :=
  (s.players.filter (fun p => p.is_connected)).map (fun p => p.id)

/-- Fanout of one broadcast event to every connected client (spec §6). -/
def fanout (s : Session) (e : Event) : List (String × Event) :=
  (connectedIds s).map (fun c => (c, e))

/-- From src `api.ts` `fetchCharacters` + spec §6: the shared character
listing response — each story character projected to public info plus its
current taken status. -/
def fetchCharactersResp (story : StoryDef) (s : Session) : List Character :=
  story.characters.map
    (fun c => toPublic c (lookupAssign s.characterAssignments c.id).isSome)

/-- From src `api.ts` `getMyCharacter` + spec §6: the private character
fetch — returns the full record of the character assigned to the
requesting player, if any. -/
def getMyCharacterResp (story : StoryDef) (s : Session) (rid : String) :
    Option CharacterPrivate :=
  story.characters.find?
    (fun c => decide (lookupAssign s.characterAssignments c.id = some rid))

/-- Whitespace test matching the characters TypeScript `String.trim`
removes in the inputs at hand. -/
def isSpaceChar (c : Char) : Bool :=
  c = ' ' ∨ c = '\t' ∨ c = '\n' ∨ c = '\r'

/-- Embedding of TypeScript `String.trim()` on a character list: strip
leading and trailing whitespace. -/
def trimChars (l : List Char) : List Char :=
  ((l.dropWhile isSpaceChar).reverse.dropWhile isSpaceChar).reverse

/-- From src `Game.tsx` `handleSendChat` (lines 301–305): if the chat input
is empty after trimming, nothing is sent; otherwise the trimmed content is
sent as a `chat` message.  The handler reads no session state and writes
none — it only calls `sendMessage` and clears the input box — so the
session state is threaded through unchanged. -/
def handleSendChat (g : Session) (chatInput : List Char) :
    Session × Option (List Char) :=
  if (trimChars chatInput).isEmpty then (g, none)
  else (g, some (trimChars chatInput))

/-- From src `JoinGame.tsx` `handleJoin` (lines 12–31): an empty-after-trim
name is rejected before any join request; otherwise the trimmed name is
sent (`joinGame(gameId, playerName.trim())`).  The input field carries
`maxLength=20` (line 59), bounding the raw input's length. -/
def handleJoin (playerName : List Char) : Option (List Char) :=
  if (trimChars playerName).isEmpty then none
  else some (trimChars playerName)

/-- From src `Home.tsx` `handleCreateGame` (lines 21–41): a create request
is sent only when a story is selected and the host name is non-empty after
trimming; the trimmed name is sent.  The input carries `maxLength=20`. -/
def handleCreateGame (storySelected : Bool) (hostName : List Char) :
    Option (List Char) :=
  if !storySelected || (trimChars hostName).isEmpty then none
  else some (trimChars hostName)

/-- From the WebSocket API: the four readyState values. -/
inductive ReadyState
  | CONNECTING
  | OPEN
  | CLOSING
  | CLOSED
  deriving DecidableEq, Repr

/-- A client WebSocket connection: its readyState and the list of frames
written to the socket so far (src `useWebSocket.ts` has no send queue and
no retry machinery, so those are the only components). -/
structure WSConn where
  readyState : ReadyState
  sent : List (String × String)
  deriving DecidableEq, Repr

/-- From src `useWebSocket.ts` `sendMessage` (lines 54–58): the frame is
written only when `readyState === WebSocket.OPEN`; in every other state
the call returns with no write, no queueing and no error (the function is
total and has no failure path). -/
def sendMessage (conn : WSConn) (ty payload : String) : WSConn :=
  if conn.readyState = .OPEN then
    { conn with sent := conn.sent ++ [(ty, payload)] }
  else conn

/-- Decidable equality of engine results, used to evaluate concrete runs. -/
instance {ε α : Type} [DecidableEq ε] [DecidableEq α] : DecidableEq (Except ε α) :=
  fun a b =>
    match a, b with
    | .ok x, .ok y =>
        if h : x = y then .isTrue (by rw [h])
        else .isFalse (by intro hc; cases hc; exact h rfl)
    | .error e, .error f =>
        if h : e = f then .isTrue (by rw [h])
        else .isFalse (by intro hc; cases hc; exact h rfl)
    | .ok _, .error _ => .isFalse (by intro hc; cases hc)
    | .error _, .ok _ => .isFalse (by intro hc; cases hc)

/-- The demo story's first character record. -/
def demoChar1 : CharacterPrivate :=
  ⟨"char-001", "Ava", "pub1", "bg1", ["s1"], [("char-002", "rival")], ["g1"]⟩

/-- A concrete story used to instantiate theorems that carry hypotheses. -/
def demoStory : StoryDef :=
  { playerMin := 2, playerMax := 4,
    characters :=
      [demoChar1,
       ⟨"char-002", "Ben", "pub2", "bg2", ["s2"], [], ["g2"]⟩,
       ⟨"char-003", "Cyn", "pub3", "bg3", [], [], []⟩],
    cluePlacements := [(("library", "fireplace"), "clue-001")] }

/-- A concrete pre-game session consistent with `demoStory`. -/
def demoSession : Session :=
  { id := "G1", story_id := "story-1", status := .waiting, phase := .lobby,
    players := [⟨"p1", "Alice", some "char-001", true, true⟩,
                ⟨"p2", "Bob", some "char-002", false, true⟩],
    host_id := "p1",
    characterAssignments := [("char-001", "p1"), ("char-002", "p2")],
    discoveredClues := [], clueFoundBy := [], createdAt := "t0" }

/-- `demoSession` after a successful StartGame. -/
def demoStarted : Session :=
  { demoSession with status := .in_progress, phase := .script_reading }

/-- `demoSession` moved to the investigation phase. -/
def demoInvSession : Session :=
  { demoSession with status := .in_progress, phase := .investigation }

/-- `demoInvSession` after one successful AdvancePhase. -/
def demoDisc : Session := { demoInvSession with phase := .discussion }

/-- `demoInvSession` after the first discovery of clue-001. -/
def demoClued : Session :=
  { demoInvSession with discoveredClues := ["clue-001"],
                        clueFoundBy := [("clue-001", "p1")] }

/-! ### Helper lemmas and concrete instances -/

theorem trimChars_length_le (l : List Char) : (trimChars l).length ≤ l.length := by
  unfold trimChars
  rw [List.length_reverse]
  calc ((l.dropWhile isSpaceChar).reverse.dropWhile isSpaceChar).length
      ≤ (l.dropWhile isSpaceChar).reverse.length :=
        (List.dropWhile_sublist isSpaceChar).length_le
    _ = (l.dropWhile isSpaceChar).length := List.length_reverse _
    _ ≤ l.length := (List.dropWhile_sublist isSpaceChar).length_le

theorem dropWhile_all_false {p : Char → Bool} :
    ∀ l : List Char, (∀ c ∈ l, p c = false) → l.dropWhile p = l
  | [], _ => rfl
  | c :: rest, h => by
      simp [List.dropWhile_cons, h c (by simp)]

theorem trimChars_all_false {l : List Char}
    (h : ∀ c ∈ l, isSpaceChar c = false) : trimChars l = l := by
  unfold trimChars
  rw [dropWhile_all_false l h,
      dropWhile_all_false _ (by intro c hc; exact h c (by simpa using hc)),
      List.reverse_reverse]

/-! ### Claims -/

/-- Claim C10: for every outbound client event, if the WebSocket connection
is not in the OPEN state at send time, `sendMessage` silently discards the
message — the connection (including its list of sent frames) is returned
unchanged, nothing is queued, and no error is raised (the embedded
function is total, mirroring the source's lack of any failure path, queue
or retry). -/
theorem sendMessage_silent_drop_when_not_open
    (conn : WSConn) (ty payload : String) (h : conn.readyState ≠ .OPEN) :
    sendMessage conn ty payload = conn := by
  simp [sendMessage, h]

/-- Witness for C10 at a concrete CLOSED connection. -/
theorem sendMessage_silent_drop_when_not_open_witness :
    (WSConn.mk .CLOSED []).readyState ≠ .OPEN ∧
      sendMessage (WSConn.mk .CLOSED []) "chat" "hello" = WSConn.mk .CLOSED [] :=
  ⟨by decide, sendMessage_silent_drop_when_not_open (WSConn.mk .CLOSED []) "chat" "hello" (by decide)⟩

/-- Claim C9: display names are between 1 and 20 characters — under the
input fields' `maxLength=20` bound, a join or create request whose name is
empty after trimming is rejected before any request is sent, and any name
actually sent has between 1 and 20 characters. -/
theorem player_name_length_bounds
    (nameJ nameH : List Char) (storySel : Bool)
    (hJ : nameJ.length ≤ 20) (hH : nameH.length ≤ 20) :
    ((trimChars nameJ).isEmpty = true → handleJoin nameJ = none) ∧
    (∀ n, handleJoin nameJ = some n → 1 ≤ n.length ∧ n.length ≤ 20) ∧
    ((trimChars nameH).isEmpty = true → handleCreateGame storySel nameH = none) ∧
    (∀ n, handleCreateGame storySel nameH = some n →
        1 ≤ n.length ∧ n.length ≤ 20) := by
  refine ⟨?_, ?_, ?_, ?_⟩
  · intro he; simp [handleJoin, he]
  · intro n hn
    by_cases he : (trimChars nameJ).isEmpty
    · simp [handleJoin, he] at hn
    · simp [handleJoin, he] at hn
      subst hn
      refine ⟨?_, le_trans (trimChars_length_le nameJ) hJ⟩
      have hne : trimChars nameJ ≠ [] := by simpa [List.isEmpty_iff] using he
      exact List.length_pos.mpr hne
  · intro he; simp [handleCreateGame, he]
  · intro n hn
    by_cases hs : storySel
    · by_cases he : (trimChars nameH).isEmpty
      · simp [handleCreateGame, hs, he] at hn
      · simp [handleCreateGame, hs, he] at hn
        subst hn
        refine ⟨?_, le_trans (trimChars_length_le nameH) hH⟩
        have hne : trimChars nameH ≠ [] := by simpa [List.isEmpty_iff] using he
        exact List.length_pos.mpr hne
    · simp [handleCreateGame, hs] at hn

/-- Witness for C9 at the concrete names "Alice" (join) and "Bob" (create). -/
theorem player_name_length_bounds_witness :
    (['A', 'l', 'i', 'c', 'e'] : List Char).length ≤ 20 ∧
    (1 ≤ (['A', 'l', 'i', 'c', 'e'] : List Char).length ∧
      (['A', 'l', 'i', 'c', 'e'] : List Char).length ≤ 20) :=
  ⟨by decide,
   (player_name_length_bounds ['A', 'l', 'i', 'c', 'e'] ['B', 'o', 'b'] true
      (by decide) (by decide)).2.1 ['A', 'l', 'i', 'c', 'e'] (by decide)⟩

/-- Counterexample to C8's length-limit clause: there is no bound L such
that every delivered chat message has length at most L — for any candidate
bound the client path sends a longer message untruncated (the chat input
has no `maxLength` and `handleSendChat` only trims). -/
theorem chat_length_unbounded :
    ¬ ∃ L : Nat, ∀ (g : Session) (input m : List Char),
        (handleSendChat g input).2 = some m → m.length ≤ L := by
  rintro ⟨L, h⟩
  have hne : ∀ c ∈ List.replicate (L + 1) 'a', isSpaceChar c = false := by
    intro c hc
    have hca : c = 'a' := List.eq_of_mem_replicate hc
    subst hca; decide
  have htrim : trimChars (List.replicate (L + 1) 'a') = List.replicate (L + 1) 'a' :=
    trimChars_all_false hne
  have hsent : (handleSendChat demoSession (List.replicate (L + 1) 'a')).2
      = some (List.replicate (L + 1) 'a') := by
    simp [handleSendChat, htrim, List.isEmpty_iff]
  have hlen := h demoSession _ _ hsent
  rw [List.length_replicate] at hlen
  omega

/-- Claim C8 (amended): the chat send path mutates no session state, the
content is trimmed of surrounding whitespace, and a message that is empty
after trimming is never sent; the length-limit clause of the original
claim is dropped — the visible code imposes none. -/
theorem chat_send_frame_and_trim (g : Session) (input : List Char) :
    (handleSendChat g input).1 = g ∧
    ((trimChars input).isEmpty = true → (handleSendChat g input).2 = none) ∧
    (∀ m, (handleSendChat g input).2 = some m → m = trimChars input) := by
  refine ⟨?_, ?_, ?_⟩
  · by_cases he : (trimChars input).isEmpty <;> simp [handleSendChat, he]
  · intro he; simp [handleSendChat, he]
  · intro m hm
    by_cases he : (trimChars input).isEmpty
    · simp [handleSendChat, he] at hm
    · simp [handleSendChat, he] at hm
      exact hm.symm

/-- Witness for C8 at the concrete input " hi " in a concrete session. -/
theorem chat_send_frame_and_trim_witness :
    (handleSendChat demoSession [' ', 'h', 'i', ' ']).1 = demoSession ∧
    (['h', 'i'] : List Char) = trimChars [' ', 'h', 'i', ' '] :=
  ⟨(chat_send_frame_and_trim demoSession [' ', 'h', 'i', ' ']).1,
   (chat_send_frame_and_trim demoSession [' ', 'h', 'i', ' ']).2.2 ['h', 'i'] (by decide)⟩

/-- Claim C5: a caller whose playerId differs from the session's hostId
always gets NotHost from both StartGame and AdvancePhase, regardless of
game state, and the session is left unchanged. -/
theorem nonhost_start_advance_rejected
    (story : StoryDef) (s : Session) (rid : String) (h : rid ≠ s.host_id) :
    startGame s rid = .error .NotHost ∧
    advancePhase s rid = .error .NotHost ∧
    stepKeep story (.start rid) s = s ∧
    stepKeep story (.advance rid) s = s := by
  have h1 : startGame s rid = .error .NotHost := by simp [startGame, h]
  have h2 : advancePhase s rid = .error .NotHost := by simp [advancePhase, h]
  exact ⟨h1, h2, by simp [stepKeep, applyAction, h1, Except.map],
         by simp [stepKeep, applyAction, h2, Except.map]⟩

/-- Witness for C5: the non-host player "p2" of the demo session. -/
theorem nonhost_start_advance_rejected_witness :
    ("p2" : String) ≠ demoSession.host_id ∧
      startGame demoSession "p2" = .error .NotHost :=
  ⟨by decide,
   (nonhost_start_advance_rejected demoStory demoSession "p2" (by decide)).1⟩

/-- Claim C6: every successful StartGame sets the session status to
in_progress and its phase to script_reading (character_select is skipped —
the target is the first gameplay phase), and broadcasts a phase_change
event that the fanout delivers to every connected client. -/
theorem startGame_success_effects
    (s : Session) (rid : String) (s' : Session) (evs : List Event)
    (h : startGame s rid = .ok (s', evs)) :
    s'.status = .in_progress ∧ s'.phase = .script_reading ∧
    evs = [.phase_change .script_reading] ∧
    ∀ c ∈ connectedIds s',
      (c, Event.phase_change .script_reading) ∈
        fanout s' (.phase_change .script_reading) := by
  unfold startGame at h
  split_ifs at h with h1 h2 h3
  · simp only [Except.ok.injEq, Prod.mk.injEq] at h
    obtain ⟨hs, he⟩ := h
    subst hs; subst he
    refine ⟨rfl, rfl, rfl, ?_⟩
    intro c hc
    simp only [fanout, List.mem_map]
    exact ⟨c, hc, rfl⟩

/-- Witness for C6: the host starts the demo session. -/
theorem startGame_success_effects_witness :
    demoStarted.status = .in_progress ∧ demoStarted.phase = .script_reading ∧
    ([Event.phase_change .script_reading] : List Event) =
      [.phase_change .script_reading] ∧
    ∀ c ∈ connectedIds demoStarted,
      (c, Event.phase_change .script_reading) ∈
        fanout demoStarted (.phase_change .script_reading) :=
  startGame_success_effects demoSession "p1" demoStarted
    [.phase_change .script_reading] (by decide)


theorem except_map_fst_ok {ε α β : Type} {x : Except ε (α × β)} {a : α}
    (h : x.map Prod.fst = .ok a) : ∃ b, x = .ok (a, b) := by
  cases x with
  | ok p =>
      simp only [Except.map, Except.ok.injEq] at h
      exact ⟨p.2, by rw [← h]⟩
  | error e =>
      simp only [Except.map] at h
      exact Except.noConfusion h

theorem selectCharacter_ok_cases {storyChars : List String} {s s' : Session}
    {pid cid : String} (h : selectCharacter storyChars s pid cid = .ok s') :
    (lookupAssign s.characterAssignments cid = some pid ∧ s' = s) ∨
    (lookupAssign s.characterAssignments cid = none ∧
      s' = { s with
             characterAssignments :=
               (cid, pid) :: s.characterAssignments.filter (fun e => e.2 ≠ pid),
             players := setPlayerChar s.players pid cid }) := by
  unfold selectCharacter at h
  by_cases h1 : s.status = .waiting ∨ s.status = .in_progress
  · rw [if_pos h1] at h
    by_cases h2 : s.phase = .lobby ∨ s.phase = .character_select
    · rw [if_pos h2] at h
      by_cases h3 : cid ∈ storyChars
      · rw [if_pos h3] at h
        split at h
        next holder heq =>
          by_cases h4 : holder = pid
          · rw [if_pos h4] at h
            simp only [Except.ok.injEq] at h
            exact Or.inl ⟨heq.trans (by rw [h4]), h.symm⟩
          · rw [if_neg h4] at h
            exact Except.noConfusion h
        next heq =>
          simp only [Except.ok.injEq] at h
          exact Or.inr ⟨heq, h.symm⟩
      · rw [if_neg h3] at h
        exact Except.noConfusion h
    · rw [if_neg h2] at h
      exact Except.noConfusion h
  · rw [if_neg h1] at h
    exact Except.noConfusion h

theorem selectCharacter_ok_phase {storyChars : List String} {s s' : Session}
    {pid cid : String} (h : selectCharacter storyChars s pid cid = .ok s') :
    s'.phase = s.phase ∧ s'.status = s.status := by
  rcases selectCharacter_ok_cases h with ⟨_, rfl⟩ | ⟨_, rfl⟩ <;> exact ⟨rfl, rfl⟩

theorem recordClueFound_ok_phase {story : StoryDef} {s s' : Session}
    {fid lid iid c : String}
    (h : recordClueFound story s fid lid iid = .ok (s', c)) :
    s'.phase = s.phase ∧ s'.status = s.status := by
  unfold recordClueFound at h
  by_cases h1 : s.phase = .investigation
  · rw [if_pos h1] at h
    split at h
    next cid heq =>
      by_cases h2 : cid ∈ s.discoveredClues
      · rw [if_pos h2] at h
        simp only [Except.ok.injEq, Prod.mk.injEq] at h
        obtain ⟨hs, _⟩ := h
        subst hs
        exact ⟨rfl, rfl⟩
      · rw [if_neg h2] at h
        simp only [Except.ok.injEq, Prod.mk.injEq] at h
        obtain ⟨hs, _⟩ := h
        subst hs
        exact ⟨rfl, rfl⟩
    next heq =>
      exact Except.noConfusion h
  · rw [if_neg h1] at h
    exact Except.noConfusion h

theorem startGame_ok_pre {s : Session} {rid : String} {s1 : Session}
    {evs : List Event} (h : startGame s rid = .ok (s1, evs)) :
    (s.phase = .lobby ∨ s.phase = .character_select) ∧
    s1 = { s with status := .in_progress, phase := .script_reading } := by
  unfold startGame at h
  by_cases h1 : rid = s.host_id
  · rw [if_pos h1] at h
    by_cases h2 : s.phase = .lobby ∨ s.phase = .character_select
    · rw [if_pos h2] at h
      by_cases h3 : allReady s.players = true ∧ 2 ≤ s.players.length
      · rw [if_pos h3] at h
        simp only [Except.ok.injEq, Prod.mk.injEq] at h
        exact ⟨h2, h.1.symm⟩
      · rw [if_neg h3] at h
        exact Except.noConfusion h
    · rw [if_neg h2] at h
      exact Except.noConfusion h
  · rw [if_neg h1] at h
    exact Except.noConfusion h

theorem advancePhase_ok_next {s : Session} {rid : String} {s1 : Session}
    {evs : List Event} (h : advancePhase s rid = .ok (s1, evs)) :
    ∃ q, nextPhase s.phase = some q ∧
      s1 = { s with phase := q,
                    status := if q = .ended then .finished else s.status } := by
  unfold advancePhase at h
  by_cases h1 : rid = s.host_id
  · rw [if_pos h1] at h
    cases hq : nextPhase s.phase with
    | some q =>
        rw [hq] at h
        simp only [Except.ok.injEq, Prod.mk.injEq] at h
        exact ⟨q, rfl, h.1.symm⟩
    | none =>
        rw [hq] at h
        exact Except.noConfusion h
  · rw [if_neg h1] at h
    exact Except.noConfusion h

theorem joinSession_ok {story : StoryDef} {s : Session} {pid pname : String}
    {s1 : Session} {evs : List Event}
    (h : joinSession story s pid pname = .ok (s1, evs)) :
    s1 = { s with players := s.players ++ [⟨pid, pname, none, false, false⟩] } := by
  unfold joinSession at h
  by_cases h1 : s.status = .waiting
  · rw [if_pos h1] at h
    by_cases h2 : s.players.length < story.playerMax
    · rw [if_pos h2] at h
      simp only [Except.ok.injEq, Prod.mk.injEq] at h
      exact h.1.symm
    · rw [if_neg h2] at h
      exact Except.noConfusion h
  · rw [if_neg h1] at h
    exact Except.noConfusion h

/-- Claim C4: within StartGame's applicable window (a pre-game phase),
StartGame succeeds exactly when the requester is the host, every player
has a non-empty characterId, and at least 2 players are present; a host
request with an unready roster or fewer than 2 players fails with
PlayersNotReady and leaves the session unchanged. -/
theorem startGame_ready_characterization
    (story : StoryDef) (s : Session) (rid : String)
    (hpre : s.phase = .lobby ∨ s.phase = .character_select) :
    ((∃ p, startGame s rid = .ok p) ↔
      (rid = s.host_id ∧ allReady s.players = true ∧ 2 ≤ s.players.length)) ∧
    (rid = s.host_id →
      (allReady s.players = false ∨ s.players.length < 2) →
      startGame s rid = .error .PlayersNotReady ∧
        stepKeep story (.start rid) s = s) := by
  constructor
  · constructor
    · rintro ⟨p, hp⟩
      unfold startGame at hp
      by_cases h1 : rid = s.host_id
      · rw [if_pos h1, if_pos hpre] at hp
        by_cases h3 : allReady s.players = true ∧ 2 ≤ s.players.length
        · exact ⟨h1, h3.1, h3.2⟩
        · rw [if_neg h3] at hp
          exact Except.noConfusion hp
      · rw [if_neg h1] at hp
        exact Except.noConfusion hp
    · rintro ⟨h1, h2, h3⟩
      refine ⟨({ s with status := .in_progress, phase := .script_reading },
               [.phase_change .script_reading]), ?_⟩
      unfold startGame
      rw [if_pos h1, if_pos hpre, if_pos ⟨h2, h3⟩]
  · intro hhost hbad
    have hnot : ¬ (allReady s.players = true ∧ 2 ≤ s.players.length) := by
      rcases hbad with hb | hb
      · intro hc
        rw [hb] at hc
        exact Bool.noConfusion hc.1
      · intro hc
        exact absurd hc.2 (by omega)
    have herr : startGame s rid = .error .PlayersNotReady := by
      unfold startGame
      rw [if_pos hhost, if_pos hpre, if_neg hnot]
    exact ⟨herr, by simp [stepKeep, applyAction, herr, Except.map]⟩

/-- Witness for C4: the host successfully starts the ready demo session. -/
theorem startGame_ready_characterization_witness :
    (demoSession.phase = .lobby ∨ demoSession.phase = .character_select) ∧
    (∃ p, startGame demoSession "p1" = .ok p) :=
  ⟨Or.inl rfl,
   (startGame_ready_characterization demoStory demoSession "p1"
      (Or.inl rfl)).1.mpr ⟨rfl, by decide, by decide⟩⟩

/-- Claim C2: every successful engine action moves the phase monotonically
forward in the fixed order lobby, character_select, script_reading,
investigation, discussion, voting, reveal, ended — equal or strictly
later, so the observed phase values form a subsequence of that order with
no repeats and no backward step; each successful AdvancePhase moves the
phase to the immediately next entry, and when the new phase is ended the
status is also set to finished. -/
theorem phase_progression_forward
    (story : StoryDef) (a : EngineAction) (s s' : Session)
    (h : applyAction story a s = .ok s') :
    (phaseIdx s.phase ≤ phaseIdx s'.phase ∧
      (s.phase ≠ s'.phase → phaseIdx s.phase < phaseIdx s'.phase)) ∧
    (∀ rid, a = .advance rid →
      phaseIdx s'.phase = phaseIdx s.phase + 1 ∧
      (s'.phase = .ended → s'.status = .finished)) := by
  cases a with
  | join pid pname =>
      refine ⟨?_, fun rid hc => EngineAction.noConfusion hc⟩
      simp only [applyAction] at h
      obtain ⟨evs, hj⟩ := except_map_fst_ok h
      have hj2 := joinSession_ok hj
      subst hj2
      exact ⟨le_refl _, fun hx => absurd rfl hx⟩
  | select pid cid =>
      simp only [applyAction] at h
      have hps := (selectCharacter_ok_phase h).1
      exact ⟨⟨le_of_eq (congrArg phaseIdx hps.symm), fun hx => absurd hps.symm hx⟩,
             fun rid hc => EngineAction.noConfusion hc⟩
  | start rid =>
      refine ⟨?_, fun rid' hc => EngineAction.noConfusion hc⟩
      simp only [applyAction] at h
      obtain ⟨evs, hsg⟩ := except_map_fst_ok h
      obtain ⟨hpre, hs1⟩ := startGame_ok_pre hsg
      subst hs1
      rcases hpre with hph | hph <;> rw [hph]
      · exact ⟨(by decide : phaseIdx GamePhase.lobby ≤ phaseIdx GamePhase.script_reading),
               fun _ =>
                 (by decide : phaseIdx GamePhase.lobby < phaseIdx GamePhase.script_reading)⟩
      · exact ⟨(by decide :
                  phaseIdx GamePhase.character_select ≤ phaseIdx GamePhase.script_reading),
               fun _ =>
                 (by decide :
                   phaseIdx GamePhase.character_select < phaseIdx GamePhase.script_reading)⟩
  | advance rid =>
      simp only [applyAction] at h
      obtain ⟨evs, ha⟩ := except_map_fst_ok h
      obtain ⟨q, hq, hs1⟩ := advancePhase_ok_next ha
      subst hs1
      cases hph : s.phase <;> rw [hph] at hq
      case lobby => exact Option.noConfusion hq
      case character_select => exact Option.noConfusion hq
      case ended => exact Option.noConfusion hq
      case script_reading =>
        obtain rfl := Option.some.inj hq
        exact ⟨⟨(by decide :
                  phaseIdx GamePhase.script_reading ≤ phaseIdx GamePhase.investigation),
                fun _ =>
                  (by decide :
                    phaseIdx GamePhase.script_reading < phaseIdx GamePhase.investigation)⟩,
               fun rid' _ =>
                 ⟨(by decide :
                    phaseIdx GamePhase.investigation = phaseIdx GamePhase.script_reading + 1),
                  fun hx =>
                    absurd (show GamePhase.investigation = GamePhase.ended from hx)
                      (by decide)⟩⟩
      case investigation =>
        obtain rfl := Option.some.inj hq
        exact ⟨⟨(by decide :
                  phaseIdx GamePhase.investigation ≤ phaseIdx GamePhase.discussion),
                fun _ =>
                  (by decide :
                    phaseIdx GamePhase.investigation < phaseIdx GamePhase.discussion)⟩,
               fun rid' _ =>
                 ⟨(by decide :
                    phaseIdx GamePhase.discussion = phaseIdx GamePhase.investigation + 1),
                  fun hx =>
                    absurd (show GamePhase.discussion = GamePhase.ended from hx)
                      (by decide)⟩⟩
      case discussion =>
        obtain rfl := Option.some.inj hq
        exact ⟨⟨(by decide : phaseIdx GamePhase.discussion ≤ phaseIdx GamePhase.voting),
                fun _ =>
                  (by decide : phaseIdx GamePhase.discussion < phaseIdx GamePhase.voting)⟩,
               fun rid' _ =>
                 ⟨(by decide :
                    phaseIdx GamePhase.voting = phaseIdx GamePhase.discussion + 1),
                  fun hx =>
                    absurd (show GamePhase.voting = GamePhase.ended from hx)
                      (by decide)⟩⟩
      case voting =>
        obtain rfl := Option.some.inj hq
        exact ⟨⟨(by decide : phaseIdx GamePhase.voting ≤ phaseIdx GamePhase.reveal),
                fun _ =>
                  (by decide : phaseIdx GamePhase.voting < phaseIdx GamePhase.reveal)⟩,
               fun rid' _ =>
                 ⟨(by decide :
                    phaseIdx GamePhase.reveal = phaseIdx GamePhase.voting + 1),
                  fun hx =>
                    absurd (show GamePhase.reveal = GamePhase.ended from hx)
                      (by decide)⟩⟩
      case reveal =>
        obtain rfl := Option.some.inj hq
        exact ⟨⟨(by decide : phaseIdx GamePhase.reveal ≤ phaseIdx GamePhase.ended),
                fun _ =>
                  (by decide : phaseIdx GamePhase.reveal < phaseIdx GamePhase.ended)⟩,
               fun rid' _ =>
                 ⟨(by decide :
                    phaseIdx GamePhase.ended = phaseIdx GamePhase.reveal + 1),
                  fun _ => rfl⟩⟩
  | clue f l i =>
      refine ⟨?_, fun rid hc => EngineAction.noConfusion hc⟩
      simp only [applyAction] at h
      obtain ⟨c2, hc2⟩ := except_map_fst_ok h
      have hps := (recordClueFound_ok_phase hc2).1
      exact ⟨le_of_eq (congrArg phaseIdx hps.symm), fun hx => absurd hps.symm hx⟩
  | connectP pid =>
      simp only [applyAction, Except.ok.injEq] at h
      subst h
      exact ⟨⟨le_refl _, fun hx => absurd rfl hx⟩,
             fun rid hc => EngineAction.noConfusion hc⟩
  | disconnectP pid =>
      simp only [applyAction, Except.ok.injEq] at h
      subst h
      exact ⟨⟨le_refl _, fun hx => absurd rfl hx⟩,
             fun rid hc => EngineAction.noConfusion hc⟩

/-- Witness for C2: the host advances the demo session from investigation
to discussion. -/
theorem phase_progression_forward_witness :
    (phaseIdx demoInvSession.phase ≤ phaseIdx demoDisc.phase ∧
      (demoInvSession.phase ≠ demoDisc.phase →
        phaseIdx demoInvSession.phase < phaseIdx demoDisc.phase)) ∧
    (∀ rid, (EngineAction.advance "p1") = .advance rid →
      phaseIdx demoDisc.phase = phaseIdx demoInvSession.phase + 1 ∧
      (demoDisc.phase = .ended → demoDisc.status = .finished)) :=
  phase_progression_forward demoStory (.advance "p1") demoInvSession demoDisc
    (by decide)

/-- Claim C3: RecordClueFound is idempotent — in phase investigation, for
a (locationId, itemId) pair that maps to a clue, a second call after a
first success returns the same clue and the same state, and
discoveredClues contains that clue exactly once. -/
theorem recordClueFound_idempotent
    (story : StoryDef) (s : Session) (fid lid iid c : String)
    (hphase : s.phase = .investigation)
    (hmap : lookupPlacement story.cluePlacements lid iid = some c)
    (hcount : s.discoveredClues.count c ≤ 1) :
    ∀ s1 r1, recordClueFound story s fid lid iid = .ok (s1, r1) →
      r1 = c ∧
      recordClueFound story s1 fid lid iid = .ok (s1, c) ∧
      s1.discoveredClues.count c = 1 := by
  intro s1 r1 h
  unfold recordClueFound at h
  rw [if_pos hphase] at h
  split at h
  next cid heq =>
    rw [hmap] at heq
    obtain rfl := Option.some.inj heq
    by_cases hmem : c ∈ s.discoveredClues
    · rw [if_pos hmem] at h
      simp only [Except.ok.injEq, Prod.mk.injEq] at h
      obtain ⟨hs, hr⟩ := h
      subst hs
      subst hr
      refine ⟨rfl, ?_, ?_⟩
      · unfold recordClueFound
        rw [if_pos hphase]
        simp only [hmap]
        rw [if_pos hmem]
      · have h1 : 0 < s.discoveredClues.count c := List.count_pos_iff.mpr hmem
        omega
    · rw [if_neg hmem] at h
      simp only [Except.ok.injEq, Prod.mk.injEq] at h
      obtain ⟨hs, hr⟩ := h
      subst hr
      have hph1 : s1.phase = .investigation := by rw [← hs]; exact hphase
      have hmem1 : c ∈ s1.discoveredClues := by
        rw [← hs]
        exact List.mem_cons_self _ _
      refine ⟨rfl, ?_, ?_⟩
      · unfold recordClueFound
        rw [if_pos hph1]
        simp only [hmap]
        rw [if_pos hmem1]
      · rw [← hs]
        have h0 : s.discoveredClues.count c = 0 := List.count_eq_zero.mpr hmem
        simp [h0]
  next heq =>
    rw [hmap] at heq
    exact Option.noConfusion heq

/-- Witness for C3: the first and second search of the library fireplace
in the demo session both yield clue-001, discovered exactly once. -/
theorem recordClueFound_idempotent_witness :
    demoInvSession.phase = .investigation ∧
    (("clue-001" : String) = "clue-001" ∧
     recordClueFound demoStory demoClued "p1" "library" "fireplace" =
       .ok (demoClued, "clue-001") ∧
     demoClued.discoveredClues.count "clue-001" = 1) :=
  ⟨rfl,
   recordClueFound_idempotent demoStory demoInvSession "p1" "library"
     "fireplace" "clue-001" rfl (by decide) (by decide) demoClued "clue-001"
     (by decide)⟩

/-- Claim C7: private character fields flow only to the holding player —
the private character fetch returns a full record only to the player the
character is assigned to, and the shared character listing consists
exactly of the public projections (public info plus taken status), which
by construction carry no private fields.  The full-state fetch
(`fetchGame`, src `api.ts`) returns the `GameState` shape of src
`types.ts`, which contains no character private fields at all. -/
theorem character_private_fields_only_holder (story : StoryDef) (s : Session) :
    (∀ rid cp, getMyCharacterResp story s rid = some cp →
        lookupAssign s.characterAssignments cp.id = some rid) ∧
    (∀ ch ∈ fetchCharactersResp story s, ∃ cp, cp ∈ story.characters ∧
        ch = toPublic cp (lookupAssign s.characterAssignments cp.id).isSome) := by
  constructor
  · intro rid cp hfind
    have h1 := List.find?_some hfind
    simpa using h1
  · intro ch hch
    simp only [fetchCharactersResp, List.mem_map] at hch
    obtain ⟨cp, hcp, hpe⟩ := hch
    exact ⟨cp, hcp, hpe.symm⟩

/-- Witness for C7: in the demo session the private record of char-001 is
served exactly to its holder p1. -/
theorem character_private_fields_only_holder_witness :
    lookupAssign demoSession.characterAssignments demoChar1.id = some "p1" :=
  (character_private_fields_only_holder demoStory demoSession).1 "p1" demoChar1
    (by decide)

theorem lookupAssign_eq_none {a : List (String × String)} {cid : String}
    (h : lookupAssign a cid = none) : cid ∉ a.map Prod.fst := by
  induction a with
  | nil => simp
  | cons e rest ih =>
      obtain ⟨c, p⟩ := e
      by_cases hc : c = cid
      · simp [lookupAssign, hc] at h
      · simp only [lookupAssign] at h
        rw [if_neg hc] at h
        simp only [List.map_cons, List.mem_cons]
        rintro (hcc | hmem)
        · exact hc hcc.symm
        · exact ih h hmem

theorem injAssign_select {a : List (String × String)} {cid pid : String}
    (hinj : injAssign a) (hfree : lookupAssign a cid = none) :
    injAssign ((cid, pid) :: a.filter (fun e => e.2 ≠ pid)) := by
  obtain ⟨hk, hv⟩ := hinj
  have hsub : List.Sublist (a.filter (fun e => e.2 ≠ pid)) a := List.filter_sublist a
  constructor
  · rw [List.map_cons, List.nodup_cons]
    constructor
    · intro hmem
      exact lookupAssign_eq_none hfree ((hsub.map Prod.fst).subset hmem)
    · exact hk.sublist (hsub.map Prod.fst)
  · rw [List.map_cons, List.nodup_cons]
    constructor
    · intro hmem
      simp only [List.mem_map] at hmem
      obtain ⟨e, he, hpe⟩ := hmem
      have hne := List.of_mem_filter he
      simp only [decide_eq_true_eq] at hne
      exact hne hpe
    · exact hv.sublist (hsub.map Prod.snd)

theorem selectCharacter_free_success
    {storyChars : List String} {s : Session} (pid : String) {cid : String}
    (hst : s.status = .waiting ∨ s.status = .in_progress)
    (hph : s.phase = .lobby ∨ s.phase = .character_select)
    (hmem : cid ∈ storyChars)
    (hfree : lookupAssign s.characterAssignments cid = none) :
    selectCharacter storyChars s pid cid =
      .ok { s with
            characterAssignments :=
              (cid, pid) :: s.characterAssignments.filter (fun e => e.2 ≠ pid),
            players := setPlayerChar s.players pid cid } := by
  unfold selectCharacter
  rw [if_pos hst, if_pos hph, if_pos hmem]
  simp only [hfree]

theorem selectCharacter_taken
    {storyChars : List String} {s : Session} {pid cid holder : String}
    (hst : s.status = .waiting ∨ s.status = .in_progress)
    (hph : s.phase = .lobby ∨ s.phase = .character_select)
    (hmem : cid ∈ storyChars)
    (hheld : lookupAssign s.characterAssignments cid = some holder)
    (hne : pid ≠ holder) :
    selectCharacter storyChars s pid cid = .error .CharacterTaken := by
  unfold selectCharacter
  rw [if_pos hst, if_pos hph, if_pos hmem]
  simp only [hheld]
  rw [if_neg (fun hx => hne hx.symm)]

theorem runSelections_all_taken
    (storyChars : List String) (cid holder : String) :
    ∀ (rest : List String) (s1 : Session),
      (s1.status = .waiting ∨ s1.status = .in_progress) →
      (s1.phase = .lobby ∨ s1.phase = .character_select) →
      cid ∈ storyChars →
      lookupAssign s1.characterAssignments cid = some holder →
      (∀ q ∈ rest, q ≠ holder) →
      runSelections storyChars cid s1 rest =
        (s1, rest.map fun _ => .error .CharacterTaken) := by
  intro rest
  induction rest with
  | nil =>
      intro s1 _ _ _ _ _
      simp [runSelections]
  | cons q rest ih =>
      intro s1 hst hph hmem hheld hdiff
      have hq : q ≠ holder := hdiff q (by simp)
      have hsel : selectCharacter storyChars s1 q cid = .error .CharacterTaken :=
        selectCharacter_taken hst hph hmem hheld hq
      simp only [runSelections, hsel]
      rw [ih s1 hst hph hmem hheld (fun r hr => hdiff r (by simp [hr]))]
      simp

/-- Claim C1: with a free character and pairwise-distinct players, a
serialized batch of SelectCharacter calls for the same characterId has
exactly one success — the first — and every later call fails with
CharacterTaken; the resulting characterAssignments remain injective in
both directions, with the character held by the first caller. -/
theorem selectCharacter_concurrent_exclusive
    (storyChars : List String) (s : Session) (cid p : String)
    (rest : List String)
    (hst : s.status = .waiting ∨ s.status = .in_progress)
    (hph : s.phase = .lobby ∨ s.phase = .character_select)
    (hmem : cid ∈ storyChars)
    (hfree : lookupAssign s.characterAssignments cid = none)
    (hnodup : (p :: rest).Nodup)
    (hinj : injAssign s.characterAssignments) :
    (runSelections storyChars cid s (p :: rest)).2 =
      .ok () :: rest.map (fun _ => .error .CharacterTaken) ∧
    injAssign (runSelections storyChars cid s (p :: rest)).1.characterAssignments ∧
    lookupAssign
      (runSelections storyChars cid s (p :: rest)).1.characterAssignments cid
      = some p := by
  have hsel := selectCharacter_free_success p hst hph hmem hfree
  set s1 : Session :=
    { s with
      characterAssignments :=
        (cid, p) :: s.characterAssignments.filter (fun e => e.2 ≠ p),
      players := setPlayerChar s.players p cid } with hs1
  have hst1 : s1.status = .waiting ∨ s1.status = .in_progress := hst
  have hph1 : s1.phase = .lobby ∨ s1.phase = .character_select := hph
  have hheld1 : lookupAssign s1.characterAssignments cid = some p := by
    rw [hs1]
    simp [lookupAssign]
  have hdiff : ∀ q ∈ rest, q ≠ p := by
    rw [List.nodup_cons] at hnodup
    intro q hq hqp
    exact hnodup.1 (hqp ▸ hq)
  have hrun := runSelections_all_taken storyChars cid p rest s1 hst1 hph1 hmem
    hheld1 hdiff
  have key : runSelections storyChars cid s (p :: rest) =
      (s1, .ok () :: rest.map (fun _ => .error .CharacterTaken)) := by
    simp only [runSelections, hsel, hrun]
  rw [key]
  exact ⟨rfl, injAssign_select hinj hfree, hheld1⟩

/-- Witness for C1: players p1 and p2 race for the free char-003 in the
demo session — p1 wins, p2 observes CharacterTaken, assignments stay
injective. -/
theorem selectCharacter_concurrent_exclusive_witness :
    (["p1", "p2"] : List String).Nodup ∧
    ((runSelections ["char-001", "char-002", "char-003"] "char-003" demoSession
        ["p1", "p2"]).2 =
      .ok () :: (["p2"] : List String).map (fun _ => .error .CharacterTaken) ∧
     injAssign (runSelections ["char-001", "char-002", "char-003"] "char-003"
        demoSession ["p1", "p2"]).1.characterAssignments ∧
     lookupAssign (runSelections ["char-001", "char-002", "char-003"] "char-003"
        demoSession ["p1", "p2"]).1.characterAssignments "char-003"
       = some "p1") :=
  ⟨by decide,
   selectCharacter_concurrent_exclusive ["char-001", "char-002", "char-003"]
     demoSession "char-003" "p1" ["p2"] (Or.inl rfl) (Or.inl rfl) (by decide)
     (by decide) (by decide) ⟨by decide, by decide⟩⟩
